import Mathlib

/-!
Shallow embedding of the `cpp-trading-core` order-book engine
(`src/order_book.cpp`, first/authoritative variant matching
`include/trading/order_book.hpp`) and of the SPSC queue
(`include/utils/spsc_queue.hpp`).

Conventions of the embedding:
  * `Price`/`Quantity` (`int64_t`) are modelled as `Int`; no claim
    touches 64-bit overflow. `OrderId` (`uint64_t`) and the 32-bit
    `OrderIndex` are modelled as `Nat`.
  * `std::map<Price, Level, cmp>` is modelled as an association list
    kept sorted by the comparator; `begin()` is the head.
  * `std::vector` push_back/back/pop_back stacks (`free_indices_`)
    are modelled as lists whose head is the vector's back.
  * `std::unordered_map<OrderId, OrderIndex>` is modelled as an
    association list (`idIndexFind`/`idIndexSet`/`idIndexErase`);
    no operation of the engine observes its iteration order.
  * `orders_[idx]` reads are `List.getD idx default`, writes are
    `List.set` (out-of-range access is UB in C++ and never happens
    in the states the theorems quantify over).
-/

namespace TradingCore

inductive Side where
  | Buy : Side
  | Sell : Side
deriving DecidableEq, Repr

/-- Pool slot, `OrderBook::Order` (order_book.hpp lines 65-72); the
C++ default member initializers give `{0, Buy, 0, 0, false}`. -/
structure Order where
  id : Nat
  side : Side
  price : Int
  qty : Int
  active : Bool
deriving DecidableEq, Repr

instance : Inhabited Order := ⟨⟨0, Side.Buy, 0, 0, false⟩⟩

/-- Level, `OrderBook::Level` (order_book.hpp lines 76-80): indices into the order pool. -/
structure Level where
  indices : List Nat
deriving DecidableEq, Repr

/-- Trade record, `trading::Trade` from types.hpp. -/
structure Trade where
  maker_id : Nat
  taker_side : Side
  price : Int
  qty : Int
deriving DecidableEq, Repr

/-- Match result, `trading::MatchResult` from types.hpp (variant with the trade list). -/
structure MatchResult where
  requested : Int := 0
  filled : Int := 0
  remaining : Int := 0
  trades : List Trade := []
deriving DecidableEq, Repr

/-- Modelled from the spec: `LevelInfo / BestQuote: {valid, price,
aggregated_qty}`.  The struct `LevelInfo` itself is not among the
source files (only its uses in `order_book.cpp` are); its fields and
value-initialized defaults are taken from the spec's data model and
from its twin `BestQuote` in types.hpp (`price{}`, `qty{}`,
`valid{false}`). -/
structure LevelInfo where
  valid : Bool := false
  price : Int := 0
  qty : Int := 0
deriving DecidableEq, Repr

/-- Lookup, `id_to_index_.find(k)`, on the association-list model of the unordered map. -/
def idIndexFind (m : List (Nat × Nat)) (k : Nat) : Option Nat :=
  match m with
  | [] => none
  | (k', v) :: rest => if k' = k then some v else idIndexFind rest k

/-- Assignment `id_to_index_[k] = v` (insert-or-assign) on the association-list model. -/
def idIndexSet (m : List (Nat × Nat)) (k v : Nat) : List (Nat × Nat) :=
  match m with
  | [] => [(k, v)]
  | (k', v') :: rest => if k' = k then (k, v) :: rest else (k', v') :: idIndexSet rest k v

/-- Erasure, `id_to_index_.erase(k)`, on the association-list model. -/
def idIndexErase (m : List (Nat × Nat)) (k : Nat) : List (Nat × Nat) :=
  match m with
  | [] => []
  | (k', v') :: rest => if k' = k then rest else (k', v') :: idIndexErase rest k

/-- The pieces of `OrderBook` state that `match_on_book` mutates besides
the book being matched (order_book.cpp lines 268-318). -/
structure MatchState where
  orders : List Order
  free_indices : List Nat
  id_to_index : List (Nat × Nat)
deriving DecidableEq, Repr

/-- Inner for-loop of `OrderBook::match_on_book` (order_book.cpp lines
284-310) over one level's index list, with the write-pointer compaction:
the returned list is the compacted `level_indices` after
`resize(write_pos)` and the returned `Int` is the residual taker qty.
When the loop guard `qty > 0` fails, the indices not yet copied are
dropped by the `resize` — they are NOT carried over. -/
def matchIndices (st : MatchState) (qty : Int) (l : List Nat) :
    MatchState × List Nat × Int :=
  match l with
  | [] => (st, [], qty)
  | idx :: rest =>
    if qty ≤ 0 then (st, [], qty)
    else
      let ord := st.orders.getD idx default
      if ¬ord.active ∨ ord.qty ≤ 0 then
        matchIndices st qty rest
      else
        let traded := min qty ord.qty
        let qty' := qty - traded
        if ord.qty - traded = 0 then
          let st' : MatchState :=
            { st with
              orders := st.orders.set idx { ord with qty := 0, active := false },
              free_indices := idx :: st.free_indices,
              id_to_index := idIndexErase st.id_to_index ord.id }
          matchIndices st' qty' rest
        else
          let st' : MatchState :=
            { st with orders := st.orders.set idx { ord with qty := ord.qty - traded } }
          let r := matchIndices st' qty' rest
          (r.1, idx :: r.2.1, r.2.2)

/-- Outer while-loop of `OrderBook::match_on_book` (order_book.cpp lines
274-315).  The source re-tests the guard `qty > 0` at the loop head; a
compacted level is left non-empty only when some index was re-copied,
which forces the residual qty to 0 (theorem
`matchIndices_kept_imp_qty_zero` below), so in that case the loop exits
and we return directly. -/
def matchLevels (st : MatchState) (book : List (Int × Level)) (qty : Int)
    (cross : Int → Bool) : MatchState × List (Int × Level) × Int :=
  match book with
  | [] => (st, [], qty)
  | (p, lvl) :: rest =>
    if qty ≤ 0 then (st, (p, lvl) :: rest, qty)
    else if ¬cross p then (st, (p, lvl) :: rest, qty)
    else
      let r := matchIndices st qty lvl.indices
      if r.2.1.isEmpty then matchLevels r.1 rest r.2.2 cross
      else (r.1, (p, ⟨r.2.1⟩) :: rest, r.2.2)

/-- The routine `OrderBook::match_on_book` (order_book.cpp lines 268-318); note the
early `if (qty <= 0) return 0;` returns 0, not `qty`. -/
def match_on_book (st : MatchState) (book : List (Int × Level)) (qty : Int)
    (cross : Int → Bool) : MatchState × List (Int × Level) × Int :=
  if qty ≤ 0 then (st, book, 0) else matchLevels st book qty cross

/-- The `OrderBook` state (order_book.hpp lines 96-103).  `bids` is
sorted by `std::greater` (head = highest price), `asks` by `std::less`
(head = lowest price); the head of `free_indices` is the vector's back. -/
structure OrderBook where
  bids : List (Int × Level) := []
  asks : List (Int × Level) := []
  orders : List Order := []
  free_indices : List Nat := []
  id_to_index : List (Nat × Nat) := []
  next_id : Nat := 1
deriving DecidableEq, Repr

/-- Constructor `OrderBook::OrderBook()` (order_book.cpp lines 9-13): reserves only. -/
def OrderBook.init : OrderBook := {}

/-- Emptiness test `OrderBook::empty` (order_book.cpp lines 15-18). -/
def OrderBook.empty (b : OrderBook) : Bool :=
  b.bids.isEmpty && b.asks.isEmpty

/-- Reset, `OrderBook::clear` (order_book.cpp lines 20-28). -/
def OrderBook.clear (_b : OrderBook) : OrderBook := OrderBook.init

/-- Slot allocation, `OrderBook::allocate_slot` (order_book.cpp lines 30-42). -/
def allocate_slot (b : OrderBook) : Nat × OrderBook :=
  match b.free_indices with
  | idx :: rest => (idx, { b with free_indices := rest })
  | [] => (b.orders.length, { b with orders := b.orders ++ [default] })

/-- Aggregation loop of `best_bid`/`best_ask` (order_book.cpp lines
52-58): sums `ord.qty` over indices whose slot is `active && qty > 0`. -/
def levelQty (orders : List Order) (l : List Nat) : Int :=
  match l with
  | [] => 0
  | idx :: rest =>
    let ord := orders.getD idx default
    (if ord.active ∧ 0 < ord.qty then ord.qty else 0) + levelQty orders rest

/-- Best bid, `OrderBook::best_bid` (order_book.cpp lines 44-67). -/
def best_bid (b : OrderBook) : LevelInfo :=
  match b.bids with
  | [] => {}
  | (price, level) :: _ =>
    let agg := levelQty b.orders level.indices
    if agg = 0 then {} else { valid := true, price := price, qty := agg }

/-- Best ask, `OrderBook::best_ask` (order_book.cpp lines 69-92). -/
def best_ask (b : OrderBook) : LevelInfo :=
  match b.asks with
  | [] => {}
  | (price, level) :: _ =>
    let agg := levelQty b.orders level.indices
    if agg = 0 then {} else { valid := true, price := price, qty := agg }

/-- Taker pass of a limit order, `OrderBook::match_incoming_limit` (order_book.cpp lines 320-343). -/
def match_incoming_limit (side : Side) (price : Int) (qty : Int) (b : OrderBook) :
    Int × OrderBook :=
  if qty ≤ 0 then (0, b)
  else
    match side with
    | Side.Buy =>
      let r := match_on_book ⟨b.orders, b.free_indices, b.id_to_index⟩ b.asks qty
        (fun top => decide (top ≤ price))
      (r.2.2, { b with asks := r.2.1, orders := r.1.orders,
                       free_indices := r.1.free_indices, id_to_index := r.1.id_to_index })
    | Side.Sell =>
      let r := match_on_book ⟨b.orders, b.free_indices, b.id_to_index⟩ b.bids qty
        (fun top => decide (price ≤ top))
      (r.2.2, { b with bids := r.2.1, orders := r.1.orders,
                       free_indices := r.1.free_indices, id_to_index := r.1.id_to_index })

/-- Market execution, `OrderBook::execute_market_order` (order_book.cpp lines 233-266);
`res.trades` is never touched by the source, so it stays `[]`. -/
def execute_market_order (side : Side) (qty : Int) (b : OrderBook) :
    MatchResult × OrderBook :=
  let res0 : MatchResult := { requested := qty, filled := 0, remaining := qty, trades := [] }
  if qty ≤ 0 then (res0, b)
  else
    match side with
    | Side.Buy =>
      let r := match_on_book ⟨b.orders, b.free_indices, b.id_to_index⟩ b.asks qty
        (fun _ => true)
      ({ res0 with filled := qty - r.2.2, remaining := r.2.2 },
       { b with asks := r.2.1, orders := r.1.orders,
                free_indices := r.1.free_indices, id_to_index := r.1.id_to_index })
    | Side.Sell =>
      let r := match_on_book ⟨b.orders, b.free_indices, b.id_to_index⟩ b.bids qty
        (fun _ => true)
      ({ res0 with filled := qty - r.2.2, remaining := r.2.2 },
       { b with bids := r.2.1, orders := r.1.orders,
                free_indices := r.1.free_indices, id_to_index := r.1.id_to_index })

/-- Resting insertion `bids_[price].indices.push_back(idx)` (and the ask twin): `std::map`
`operator[]` inserts an empty level at the comparator-sorted position if
the key is absent, then the index is appended at the tail.  `cmp a b`
is the map comparator: `a` precedes `b` iff `cmp a b`. -/
def bookAppend (cmp : Int → Int → Bool) (book : List (Int × Level)) (p : Int)
    (idx : Nat) : List (Int × Level) :=
  match book with
  | [] => [(p, ⟨[idx]⟩)]
  | (q, lvl) :: rest =>
    if cmp p q then (p, ⟨[idx]⟩) :: (q, lvl) :: rest
    else if p = q then (q, ⟨lvl.indices ++ [idx]⟩) :: rest
    else (q, lvl) :: bookAppend cmp rest p idx

/-- Comparator of `BidBook` (`std::greater<Price>`). -/
def bidCmp (a b : Int) : Bool := decide (b < a)

/-- Comparator of `AskBook` (`std::less<Price>`). -/
def askCmp (a b : Int) : Bool := decide (a < b)

/-- Limit order entry, `OrderBook::add_limit_order` (order_book.cpp lines 94-132). -/
def add_limit_order (side : Side) (price : Int) (qty : Int) (b : OrderBook) :
    Nat × OrderBook :=
  if qty ≤ 0 then (0, b)
  else
    let m := match_incoming_limit side price qty b
    if m.1 ≤ 0 then (0, m.2)
    else
      let a := allocate_slot m.2
      let id := a.2.next_id
      let ord : Order := ⟨id, side, price, m.1, true⟩
      let b4 : OrderBook :=
        { a.2 with
          next_id := a.2.next_id + 1,
          orders := a.2.orders.set a.1 ord,
          id_to_index := idIndexSet a.2.id_to_index id a.1 }
      match side with
      | Side.Buy => (id, { b4 with bids := bookAppend bidCmp b4.bids price a.1 })
      | Side.Sell => (id, { b4 with asks := bookAppend askCmp b4.asks price a.1 })

/-- Limit order entry with caller id, `OrderBook::add_limit_order_with_id` (order_book.cpp lines 134-184). -/
def add_limit_order_with_id (id : Nat) (side : Side) (price : Int) (qty : Int)
    (b : OrderBook) : Nat × OrderBook :=
  if qty ≤ 0 then (id, b)
  else
    let m := match_incoming_limit side price qty b
    if m.1 ≤ 0 then (id, m.2)
    else
      let b1 : OrderBook :=
        match idIndexFind m.2.id_to_index id with
        | some oldIdx =>
          let old := m.2.orders.getD oldIdx default
          { m.2 with
            orders := m.2.orders.set oldIdx { old with active := false, qty := 0 },
            free_indices := oldIdx :: m.2.free_indices,
            id_to_index := idIndexErase m.2.id_to_index id }
        | none => m.2
      let a := allocate_slot b1
      let ord : Order := ⟨id, side, price, m.1, true⟩
      let b3 : OrderBook :=
        { a.2 with
          orders := a.2.orders.set a.1 ord,
          id_to_index := idIndexSet a.2.id_to_index id a.1 }
      match side with
      | Side.Buy => (id, { b3 with bids := bookAppend bidCmp b3.bids price a.1 })
      | Side.Sell => (id, { b3 with asks := bookAppend askCmp b3.asks price a.1 })

/-- The level-cleaning part of `OrderBook::cancel` (order_book.cpp
lines 205-227): find the level at `p`, erase every occurrence of `idx`
from it (`std::remove` + `erase`), drop the level if it became empty. -/
def eraseLevelIdx (book : List (Int × Level)) (p : Int) (idx : Nat) :
    List (Int × Level) :=
  match book with
  | [] => []
  | (q, lvl) :: rest =>
    if q = p then
      let v := lvl.indices.filter (fun i => i ≠ idx)
      if v.isEmpty then rest else (q, ⟨v⟩) :: rest
    else (q, lvl) :: eraseLevelIdx rest p idx

/-- Cancellation, `OrderBook::cancel` (order_book.cpp lines 186-231). -/
def OrderBook.cancel (id : Nat) (b : OrderBook) : Bool × OrderBook :=
  match idIndexFind b.id_to_index id with
  | none => (false, b)
  | some idx =>
    let ord := b.orders.getD idx default
    if ¬ord.active ∨ ord.qty ≤ 0 then
      (false, { b with id_to_index := idIndexErase b.id_to_index id })
    else
      let b1 : OrderBook :=
        { b with
          orders := b.orders.set idx { ord with active := false, qty := 0 },
          free_indices := idx :: b.free_indices }
      let b2 : OrderBook :=
        match ord.side with
        | Side.Buy => { b1 with bids := eraseLevelIdx b1.bids ord.price idx }
        | Side.Sell => { b1 with asks := eraseLevelIdx b1.asks ord.price idx }
      (true, { b2 with id_to_index := idIndexErase b2.id_to_index id })

/-- All slot indices referenced by the levels of one book side. -/
def allBookIndices (book : List (Int × Level)) : List Nat :=
  match book with
  | [] => []
  | (_, lvl) :: rest => lvl.indices ++ allBookIndices rest

/-- Total active depth of one book side: the sum over its levels of the
aggregated active quantity (the sum `best_bid`/`best_ask` compute per
level). -/
def bookDepth (orders : List Order) (book : List (Int × Level)) : Int :=
  match book with
  | [] => 0
  | (_, lvl) :: rest => levelQty orders lvl.indices + bookDepth orders rest

/-- Price keys of the bid book, best (highest) first. -/
def bidKeys (b : OrderBook) : List Int := b.bids.map Prod.fst

/-- Price keys of the ask book, best (lowest) first. -/
def askKeys (b : OrderBook) : List Int := b.asks.map Prod.fst

/-- Book states reachable from the freshly constructed book by the
public mutating operations. -/
inductive Reachable : OrderBook → Prop where
  | init : Reachable OrderBook.init
  | add_limit (side : Side) (price qty : Int) {b : OrderBook} :
      Reachable b → Reachable (add_limit_order side price qty b).2
  | add_with_id (id : Nat) (side : Side) (price qty : Int) {b : OrderBook} :
      Reachable b → Reachable (add_limit_order_with_id id side price qty b).2
  | cancel (id : Nat) {b : OrderBook} :
      Reachable b → Reachable (OrderBook.cancel id b).2
  | market (side : Side) (qty : Int) {b : OrderBook} :
      Reachable b → Reachable (execute_market_order side qty b).2
  | clear {b : OrderBook} : Reachable b → Reachable (OrderBook.clear b)

/-- The slot index the next `allocate_slot` will hand out. -/
def allocFreshIdx (b : OrderBook) : Nat :=
  match b.free_indices with
  | idx :: _ => idx
  | [] => b.orders.length

/-- Every level present in either book references at least one slot
index (levels are created non-empty and erased when emptied). -/
def levelsNonempty (b : OrderBook) : Prop :=
  (∀ pl ∈ b.bids, pl.2.indices ≠ []) ∧ (∀ pl ∈ b.asks, pl.2.indices ≠ [])

instance (b : OrderBook) : Decidable (levelsNonempty b) := by
  unfold levelsNonempty; infer_instance

/-- The queue `utils::SpscQueue<T>` (spsc_queue.hpp lines 9-75): fixed capacity,
`head_` owned by the producer, `tail_` by the consumer; under the
sequential use the claims quantify over, the atomics are plain fields. -/
structure SpscQueue (α : Type) where
  capacity : Nat
  buffer : List α
  head : Nat
  tail : Nat
deriving DecidableEq, Repr

/-- Constructor `SpscQueue::SpscQueue(capacity)`: `buffer_(capacity)` value-initializes
`capacity` slots; both indices start at 0. -/
def SpscQueue.init (α : Type) [Inhabited α] (capacity : Nat) : SpscQueue α :=
  ⟨capacity, List.replicate capacity default, 0, 0⟩

/-- Index increment, `SpscQueue::increment` (spsc_queue.hpp lines 63-67). -/
def SpscQueue.increment (capacity idx : Nat) : Nat :=
  if idx + 1 = capacity then 0 else idx + 1

/-- Producer push, `SpscQueue::push` (spsc_queue.hpp lines 20-32). -/
def SpscQueue.push {α : Type} (v : α) (q : SpscQueue α) : Bool × SpscQueue α :=
  let next := SpscQueue.increment q.capacity q.head
  if next = q.tail then (false, q)
  else (true, { q with buffer := q.buffer.set q.head v, head := next })

/-- Consumer pop, `SpscQueue::pop` (spsc_queue.hpp lines 35-45); the C++ `bool` plus
out-parameter is returned as an `Option`. -/
def SpscQueue.pop {α : Type} [Inhabited α] (q : SpscQueue α) :
    Option α × SpscQueue α :=
  if q.tail = q.head then (none, q)
  else (some (q.buffer.getD q.tail default),
        { q with tail := SpscQueue.increment q.capacity q.tail })

/-- Number of un-popped elements currently stored, for a queue with
`head, tail < capacity` (the wrap-around distance from `tail` to `head`). -/
def SpscQueue.size {α : Type} (q : SpscQueue α) : Nat :=
  (q.head + q.capacity - q.tail) % q.capacity

/-- Iterated pushes: `k` consecutive pushes of `v` (ignoring the returned flags). -/
def pushIter {α : Type} (v : α) : Nat → SpscQueue α → SpscQueue α
  | 0, q => q
  | k + 1, q => (SpscQueue.push v (pushIter v k q)).2

/-- The book a market order of the given taker side executes against
(Buy hits `asks_`, Sell hits `bids_`). -/
def oppositeBook (side : Side) (b : OrderBook) : List (Int × Level) :=
  match side with
  | Side.Buy => b.asks
  | Side.Sell => b.bids

/-- Well-ordering of the two books' price keys: bids strictly
decreasing (best bid = head, as `std::greater` guarantees), asks
strictly increasing (best ask = head, as `std::less` guarantees), and
no crossing — every bid key is strictly below every ask key. -/
def KeysWF (bk ak : List Int) : Prop :=
  bk.Pairwise (fun a c => c < a) ∧ ak.Pairwise (fun a c => a < c) ∧
    ∀ pb ∈ bk, ∀ pa ∈ ak, pb < pa

/-- Well-ordering `KeysWF` instantiated at a book state's key lists. -/
def BookOrderedWF (b : OrderBook) : Prop :=
  KeysWF (bidKeys b) (askKeys b)

/-- C8: for every side and every quantity `qty ≤ 0`,
`execute_market_order(side, qty)` leaves the entire book state unchanged
and returns `{requested = qty, filled = 0, remaining = qty, trades = []}`;
in particular `market(side, 0)` is a no-op returning the zero-filled
result. -/
theorem C8_market_nonpositive_noop (b : OrderBook) (side : Side) (qty : Int)
    (h : qty ≤ 0) :
    execute_market_order side qty b =
      ({ requested := qty, filled := 0, remaining := qty, trades := [] }, b) := by
  unfold execute_market_order
  simp [h]

/-- Witness for C8 at a concrete non-empty book and `qty = 0`. -/
theorem C8_market_nonpositive_noop_witness :
    (0 : Int) ≤ 0 ∧
      execute_market_order Side.Sell 0 (add_limit_order Side.Buy 100 2 OrderBook.init).2 =
        ({ requested := 0, filled := 0, remaining := 0, trades := [] },
         (add_limit_order Side.Buy 100 2 OrderBook.init).2) :=
  ⟨by decide,
   C8_market_nonpositive_noop (add_limit_order Side.Buy 100 2 OrderBook.init).2
     Side.Sell 0 (by decide)⟩

/-- C10: for every id, side, price and every `qty ≤ 0`,
`add_limit_order_with_id(id, side, price, qty)` performs no change to the
book and returns the given id unchanged (so the return value is the same
as for a fully-filled taker order, which also returns `id`). -/
theorem C10_add_with_id_nonpositive_noop (b : OrderBook) (id : Nat) (side : Side)
    (price qty : Int) (h : qty ≤ 0) :
    add_limit_order_with_id id side price qty b = (id, b) := by
  unfold add_limit_order_with_id
  simp [h]

/-- Witness for C10 at a concrete book, `id = 7`, `qty = -3`. -/
theorem C10_add_with_id_nonpositive_noop_witness :
    (-3 : Int) ≤ 0 ∧
      add_limit_order_with_id 7 Side.Sell 50 (-3)
          (add_limit_order Side.Buy 100 2 OrderBook.init).2 =
        (7, (add_limit_order Side.Buy 100 2 OrderBook.init).2) :=
  ⟨by decide,
   C10_add_with_id_nonpositive_noop (add_limit_order Side.Buy 100 2 OrderBook.init).2
     7 Side.Sell 50 (-3) (by decide)⟩

/-- C1: evidence of the divergence.  After `add_limit(Buy,100,2)`,
`add_limit(Buy,100,2)`, `execute_market_order(Sell,1)`, the taker qty
reaches zero partway through level 100 and the source's
`level_indices.resize(write_pos)` drops the second order's unprocessed
index 1 instead of copying it forward: order id 2 is still in `IdIndex`
mapping to slot 1, the slot is `active` with `qty = 2`, yet index 1
appears in no level of either side — invariant I1 is violated. -/
theorem C1_truncation_drops_live_index :
    (let s := (execute_market_order Side.Sell 1
        ((add_limit_order Side.Buy 100 2
          (add_limit_order Side.Buy 100 2 OrderBook.init).2).2)).2
     idIndexFind s.id_to_index 2 = some 1 ∧
       (s.orders.getD 1 default).active = true ∧
       (s.orders.getD 1 default).qty = 2 ∧
       allBookIndices s.bids = [0] ∧ allBookIndices s.asks = []) := by
  decide

/-- C2: evidence of the divergence.  After `add_limit(Sell,100,5)`, the
market order `market(Buy,3)` fills 3 but its `MatchResult` carries an
empty trade list (no code path of the source ever constructs a `Trade`),
so `sum(trade.qty) = 0 ≠ 3 = filled`. -/
theorem C2_no_trades_emitted :
    (execute_market_order Side.Buy 3
        (add_limit_order Side.Sell 100 5 OrderBook.init).2).1 =
      { requested := 3, filled := 3, remaining := 0, trades := [] } := by
  decide

/-- C4, counterexample: a reachable state (supersede leaves a stale
all-tombstone top bid level; the engine compares prices with signed
order, and an invalid `LevelInfo` carries the value-initialized
`price = 0`) in which both books are non-empty yet
`best_bid().price < best_ask().price` fails: `best_bid()` is invalid
with price 0 while `best_ask()` is valid with price −1. -/
theorem C4_counterexample :
    (let s := (OrderBook.cancel 5
        (add_limit_order Side.Sell (-1) 3
          (add_limit_order_with_id 5 Side.Buy (-20) 5
            (add_limit_order_with_id 5 Side.Buy (-10) 5 OrderBook.init).2).2).2).2
     s.bids ≠ [] ∧ s.asks ≠ [] ∧
       (best_bid s).valid = false ∧ (best_ask s).valid = true ∧
       ¬((best_bid s).price < (best_ask s).price)) := by
  decide

/-- C5, counterexample: `add_limit(Sell,100,5)` then
`add_limit(Buy,101,7)` returns the nonzero id 2 after its taker pass
consumed the resting sell; the immediate `cancel(2)` returns true but
the book is not restored: `best_ask` was `{valid,100,5}` before the add
and is invalid afterwards. -/
theorem C5_counterexample :
    (let b := (add_limit_order Side.Sell 100 5 OrderBook.init).2
     let r := add_limit_order Side.Buy 101 7 b
     r.1 ≠ 0 ∧ (OrderBook.cancel r.1 r.2).1 = true ∧
       best_ask (OrderBook.cancel r.1 r.2).2 ≠ best_ask b) := by
  decide

/-- C6, counterexample: superseding id 42 (resting buy 100×5) with
`add_limit_with_id(42, Buy, 90, 7)` tombstones the old slot 0 and pushes
it on the free-list, but `allocate_slot` immediately pops that very slot
for the new order: afterwards slot 0 is active with qty 7 (not inactive
with qty 0), the free-list is empty (the slot is not on it), and
`IdIndex` still maps 42 to the old slot index 0. -/
theorem C6_counterexample :
    (let b1 := (add_limit_order_with_id 42 Side.Buy 100 5 OrderBook.init).2
     let b2 := (add_limit_order_with_id 42 Side.Buy 90 7 b1).2
     idIndexFind b1.id_to_index 42 = some 0 ∧
       (b2.orders.getD 0 default).active = true ∧
       (b2.orders.getD 0 default).qty = 7 ∧
       b2.free_indices = [] ∧
       idIndexFind b2.id_to_index 42 = some 0) := by
  decide

/-- C7, counterexample: `add_limit(Sell,100,5)` consumes internal id 1;
the fully-matched `add_limit(Buy,101,5)` returns 0 and consumes NO
internal id (`next_id_` stays 2, because the source only increments it
after the taker pass leaves a residual), so the next `add_limit` returns
id 2 — under the claim every call consumes exactly one id and the third
call would return 3. -/
theorem C7_counterexample :
    (let b := (add_limit_order Side.Sell 100 5 OrderBook.init).2
     let r := add_limit_order Side.Buy 101 5 b
     b.next_id = 2 ∧ r.1 = 0 ∧ r.2.next_id = 2 ∧
       (add_limit_order Side.Buy 50 1 r.2).1 = 2) := by
  decide

theorem levelQty_nonneg (orders : List Order) (l : List Nat) :
    0 ≤ levelQty orders l := by
  induction l with
  | nil => simp [levelQty]
  | cons idx rest ih =>
    simp only [levelQty]
    by_cases h : (orders.getD idx default).active ∧ 0 < (orders.getD idx default).qty
    · rw [if_pos h]
      have := h.2
      omega
    · rw [if_neg h]
      omega

theorem bookDepth_nonneg (orders : List Order) (book : List (Int × Level)) :
    0 ≤ bookDepth orders book := by
  induction book with
  | nil => simp [bookDepth]
  | cons pl rest ih =>
    simp only [bookDepth]
    have := levelQty_nonneg orders pl.2.indices
    omega

theorem levelQty_congr (o1 o2 : List Order) (l : List Nat)
    (h : ∀ i ∈ l, o1.getD i default = o2.getD i default) :
    levelQty o1 l = levelQty o2 l := by
  induction l with
  | nil => rfl
  | cons idx rest ih =>
    simp only [levelQty]
    rw [h idx (List.mem_cons_self idx rest),
        ih (fun i hi => h i (List.mem_cons_of_mem _ hi))]

theorem bookDepth_congr (o1 o2 : List Order) (book : List (Int × Level))
    (h : ∀ i ∈ allBookIndices book, o1.getD i default = o2.getD i default) :
    bookDepth o1 book = bookDepth o2 book := by
  induction book with
  | nil => rfl
  | cons pl rest ih =>
    simp only [bookDepth]
    rw [levelQty_congr o1 o2 pl.2.indices
          (fun i hi => h i (by simp [allBookIndices, hi])),
        ih (fun i hi => h i (by simp [allBookIndices, hi]))]

theorem matchIndices_orders_frame (st : MatchState) (qty : Int) (l : List Nat)
    (j : Nat) (hj : j ∉ l) :
    (matchIndices st qty l).1.orders.getD j default = st.orders.getD j default := by
  induction l generalizing st qty with
  | nil => rfl
  | cons idx rest ih =>
    have hij : idx ≠ j := fun h => hj (h ▸ List.mem_cons_self idx rest)
    have hjr : j ∉ rest := fun h => hj (List.mem_cons_of_mem _ h)
    simp only [matchIndices]
    split
    · rfl
    · split
      · exact ih _ _ hjr
      · split
        · rw [ih _ _ hjr]
          simp [List.getD_eq_getElem?_getD, List.getElem?_set_ne hij]
        · show (matchIndices _ _ rest).1.orders.getD j default = _
          rw [ih _ _ hjr]
          simp [List.getD_eq_getElem?_getD, List.getElem?_set_ne hij]

theorem matchIndices_zero (st : MatchState) (l : List Nat) :
    matchIndices st 0 l = (st, [], 0) := by
  cases l <;> simp [matchIndices]

theorem matchIndices_kept_imp_qty_zero (st : MatchState) (qty : Int) (l : List Nat) :
    (matchIndices st qty l).2.1 ≠ [] → (matchIndices st qty l).2.2 = 0 := by
  induction l generalizing st qty with
  | nil => intro h; simp [matchIndices] at h
  | cons idx rest ih =>
    simp only [matchIndices]
    split
    · intro h; simp at h
    · split
      · exact ih _ _
      · split
        · exact ih _ _
        · next h1 _ h3 =>
          intro _
          show (matchIndices _ (qty - min qty (st.orders.getD idx default).qty) rest).2.2 = 0
          rw [show qty - min qty (st.orders.getD idx default).qty = 0 by omega,
              matchIndices_zero]

theorem matchIndices_qty_spec (st : MatchState) (qty : Int) (l : List Nat)
    (h0 : 0 ≤ qty) (hnd : l.Nodup) :
    (matchIndices st qty l).2.2 = max (qty - levelQty st.orders l) 0 := by
  induction l generalizing st qty with
  | nil =>
    simp [matchIndices, levelQty]
    omega
  | cons idx rest ih =>
    have hnr : rest.Nodup := (List.nodup_cons.mp hnd).2
    have hmem : idx ∉ rest := (List.nodup_cons.mp hnd).1
    have hR := levelQty_nonneg st.orders rest
    simp only [matchIndices, levelQty]
    split
    · next h =>
      have hc : (0:Int) ≤
          (if (st.orders.getD idx default).active ∧ 0 < (st.orders.getD idx default).qty
           then (st.orders.getD idx default).qty else 0) := by
        split
        · next hp => exact le_of_lt hp.2
        · exact le_refl 0
      show qty = _
      omega
    · split
      · next h1 hskip =>
        rw [ih _ _ h0 hnr]
        have hP : ¬((st.orders.getD idx default).active ∧
            0 < (st.orders.getD idx default).qty) := by
          rcases hskip with h | h
          · exact fun hp => h hp.1
          · exact fun hp => absurd hp.2 (not_lt.mpr h)
        rw [if_neg hP]
        omega
      · next h1 hact =>
        have hP : (st.orders.getD idx default).active ∧
            0 < (st.orders.getD idx default).qty := by
          constructor
          · by_contra hna
            exact hact (Or.inl hna)
          · by_contra hnq
            exact hact (Or.inr (not_lt.mp hnq))
        rw [if_pos hP]
        split
        · next h3 =>
          rw [ih _ _ (by omega) hnr]
          rw [levelQty_congr _ st.orders rest
                (fun i hi => by
                  have : idx ≠ i := fun he => hmem (he ▸ hi)
                  simp [List.getD_eq_getElem?_getD, List.getElem?_set_ne this])]
          omega
        · next h3 =>
          show (matchIndices _ (qty - min qty (st.orders.getD idx default).qty) rest).2.2 = _
          rw [show qty - min qty (st.orders.getD idx default).qty = 0 by omega,
              matchIndices_zero]
          show (0:Int) = _
          omega

theorem matchLevels_qty_spec (st : MatchState) (book : List (Int × Level)) (qty : Int)
    (h0 : 0 ≤ qty) (hnd : (allBookIndices book).Nodup) :
    (matchLevels st book qty (fun _ => true)).2.2 =
      max (qty - bookDepth st.orders book) 0 := by
  induction book generalizing st qty with
  | nil =>
    simp [matchLevels, bookDepth]
    omega
  | cons pl rest ih =>
    obtain ⟨p, lvl⟩ := pl
    have hnd' := hnd
    simp only [allBookIndices, List.nodup_append] at hnd'
    obtain ⟨hnd1, hnd2, hdisj⟩ := hnd'
    have hL := levelQty_nonneg st.orders lvl.indices
    have hB := bookDepth_nonneg st.orders rest
    simp only [matchLevels, bookDepth]
    split
    · next h =>
      show qty = _
      omega
    · next h =>
      simp only [not_true, if_false, ite_false, Bool.not_true, decide_True]
      split
      · next hemp =>
        have hq2 := matchIndices_qty_spec st qty lvl.indices h0 hnd1
        rw [ih _ _ (by rw [hq2]; omega) hnd2]
        rw [bookDepth_congr _ st.orders rest
              (fun i hi =>
                matchIndices_orders_frame st qty lvl.indices i
                  (fun hmem => hdisj hmem hi))]
        rw [hq2]
        omega
      · next hne =>
        have hz := matchIndices_kept_imp_qty_zero st qty lvl.indices
          (by simpa [List.isEmpty_iff] using hne)
        have hq2 := matchIndices_qty_spec st qty lvl.indices h0 hnd1
        show (matchIndices st qty lvl.indices).2.2 = _
        omega

/-- C3: for every side and every quantity `q > 0`,
`execute_market_order(side, q)` against a book whose opposite side holds
total active depth `D` (the sum of the aggregated active quantities of
its levels) returns `filled = min(q, D)` and `remaining = q − filled`;
against an empty opposite side this gives `filled = 0`,
`remaining = q`.  The depth hypothesis asks the opposite side's slot
indices to be duplicate-free, which is what makes `D` the quantity the
matching loop can consume. -/
theorem C3_market_fills_min_depth (b : OrderBook) (side : Side) (qty : Int)
    (hq : 0 < qty)
    (hnd : (allBookIndices (oppositeBook side b)).Nodup) :
    (execute_market_order side qty b).1.filled =
        min qty (bookDepth b.orders (oppositeBook side b)) ∧
      (execute_market_order side qty b).1.remaining =
        qty - min qty (bookDepth b.orders (oppositeBook side b)) := by
  have hD := bookDepth_nonneg b.orders (oppositeBook side b)
  cases side with
  | Buy =>
    simp only [oppositeBook] at hnd hD ⊢
    simp only [execute_market_order, match_on_book, if_neg (by omega : ¬qty ≤ 0)]
    rw [matchLevels_qty_spec ⟨b.orders, b.free_indices, b.id_to_index⟩ b.asks qty
          (le_of_lt hq) hnd]
    constructor <;> simp <;> omega
  | Sell =>
    simp only [oppositeBook] at hnd hD ⊢
    simp only [execute_market_order, match_on_book, if_neg (by omega : ¬qty ≤ 0)]
    rw [matchLevels_qty_spec ⟨b.orders, b.free_indices, b.id_to_index⟩ b.bids qty
          (le_of_lt hq) hnd]
    constructor <;> simp <;> omega

/-- Witness for C3: a book holding one resting sell 100×5; a market buy
of 3 fills `min 3 5 = 3` with remainder 0. -/
theorem C3_market_fills_min_depth_witness :
    0 < (3:Int) ∧
      (allBookIndices (oppositeBook Side.Buy
        (add_limit_order Side.Sell 100 5 OrderBook.init).2)).Nodup ∧
      ((execute_market_order Side.Buy 3
          (add_limit_order Side.Sell 100 5 OrderBook.init).2).1.filled =
        min 3 (bookDepth (add_limit_order Side.Sell 100 5 OrderBook.init).2.orders
          (oppositeBook Side.Buy (add_limit_order Side.Sell 100 5 OrderBook.init).2)) ∧
      (execute_market_order Side.Buy 3
          (add_limit_order Side.Sell 100 5 OrderBook.init).2).1.remaining =
        3 - min 3 (bookDepth (add_limit_order Side.Sell 100 5 OrderBook.init).2.orders
          (oppositeBook Side.Buy (add_limit_order Side.Sell 100 5 OrderBook.init).2))) :=
  ⟨by decide, by decide,
   C3_market_fills_min_depth (add_limit_order Side.Sell 100 5 OrderBook.init).2
     Side.Buy 3 (by decide) (by decide)⟩

theorem wrapSub_mod (C h t : Nat) (hh : h < C) (ht : t < C) :
    (h + C - t) % C = if t ≤ h then h - t else h + C - t := by
  split
  · next hle =>
    rw [show h + C - t = (h - t) + C by omega, Nat.add_mod_right]
    exact Nat.mod_eq_of_lt (by omega)
  · next hgt => exact Nat.mod_eq_of_lt (by omega)

theorem spsc_full_iff {α : Type} (q : SpscQueue α)
    (hh : q.head < q.capacity) (ht : q.tail < q.capacity) :
    (SpscQueue.increment q.capacity q.head = q.tail) ↔
      SpscQueue.size q = q.capacity - 1 := by
  unfold SpscQueue.increment SpscQueue.size
  rw [wrapSub_mod q.capacity q.head q.tail hh ht]
  split <;> split <;> omega

theorem spsc_push_isFalse_iff {α : Type} (v : α) (q : SpscQueue α) :
    (SpscQueue.push v q).1 = false ↔
      SpscQueue.increment q.capacity q.head = q.tail := by
  unfold SpscQueue.push
  by_cases hg : SpscQueue.increment q.capacity q.head = q.tail
  · simp [hg]
  · simp [hg]

theorem pushIter_state (α : Type) [Inhabited α] (v : α) (C k : Nat)
    (hC : 2 ≤ C) (hk : k ≤ C - 1) :
    ∃ buf : List α, pushIter v k (SpscQueue.init α C) = ⟨C, buf, k, 0⟩ := by
  induction k with
  | zero => exact ⟨List.replicate C default, rfl⟩
  | succ k ih =>
    obtain ⟨buf, hb⟩ := ih (by omega)
    refine ⟨buf.set k v, ?_⟩
    have hinc : SpscQueue.increment C k = k + 1 := by
      unfold SpscQueue.increment
      rw [if_neg (by omega : ¬k + 1 = C)]
    show (SpscQueue.push v (pushIter v k (SpscQueue.init α C))).2 = _
    rw [hb]
    simp only [SpscQueue.push, hinc]
    rw [if_neg (by omega : ¬k + 1 = 0)]

/-- C9: for a `SpscQueue` constructed with capacity `C ≥ 2`, under
sequential use `push` returns false exactly when the queue already
holds `C−1` un-popped elements, and otherwise stores the value at the
producer index and returns true; starting from empty, `C−1` consecutive
pushes succeed, the `C`-th fails, and one `pop` re-enables exactly one
`push` (the effective queue size is `C−1`). -/
theorem C9_spsc_sequential (α : Type) [Inhabited α] (v : α) (C : Nat)
    (hC : 2 ≤ C) (q : SpscQueue α) (hcap : q.capacity = C)
    (hh : q.head < C) (ht : q.tail < C) :
    ((SpscQueue.push v q).1 = false ↔ SpscQueue.size q = C - 1) ∧
      (SpscQueue.size q ≠ C - 1 →
        SpscQueue.push v q =
          (true, { q with buffer := q.buffer.set q.head v,
                          head := SpscQueue.increment q.capacity q.head })) ∧
      (∀ k, k < C - 1 →
        (SpscQueue.push v (pushIter v k (SpscQueue.init α C))).1 = true) ∧
      (SpscQueue.push v (pushIter v (C - 1) (SpscQueue.init α C))).1 = false ∧
      (SpscQueue.push v
        (SpscQueue.pop (pushIter v (C - 1) (SpscQueue.init α C))).2).1 = true ∧
      (SpscQueue.push v (SpscQueue.push v
        (SpscQueue.pop (pushIter v (C - 1) (SpscQueue.init α C))).2).2).1 = false := by
  subst hcap
  have hfull : (SpscQueue.push v q).1 = false ↔
      SpscQueue.size q = q.capacity - 1 := by
    rw [spsc_push_isFalse_iff]
    exact spsc_full_iff q hh ht
  obtain ⟨buf, hb⟩ := pushIter_state α v q.capacity (q.capacity - 1) hC (le_refl _)
  have hinc0 : SpscQueue.increment q.capacity 0 = 1 := by
    unfold SpscQueue.increment
    rw [if_neg (by omega : ¬0 + 1 = q.capacity)]
  have hincTop : SpscQueue.increment q.capacity (q.capacity - 1) = 0 := by
    unfold SpscQueue.increment
    rw [if_pos (by omega : q.capacity - 1 + 1 = q.capacity)]
  have hpop : (SpscQueue.pop (pushIter v (q.capacity - 1) (SpscQueue.init α q.capacity))).2 =
      ⟨q.capacity, buf, q.capacity - 1, 1⟩ := by
    rw [hb]
    simp only [SpscQueue.pop, hinc0]
    rw [if_neg (by omega : ¬(0:Nat) = q.capacity - 1)]
  refine ⟨hfull, ?_, ?_, ?_, ?_, ?_⟩
  · intro hsz
    have hguard : ¬SpscQueue.increment q.capacity q.head = q.tail := fun hg =>
      hsz (hfull.mp ((spsc_push_isFalse_iff v q).mpr hg))
    unfold SpscQueue.push
    rw [if_neg hguard]
  · intro k hk
    obtain ⟨bufk, hbk⟩ := pushIter_state α v q.capacity k hC (by omega)
    have hinck : SpscQueue.increment q.capacity k = k + 1 := by
      unfold SpscQueue.increment
      rw [if_neg (by omega : ¬k + 1 = q.capacity)]
    rw [hbk]
    simp only [SpscQueue.push, hinck]
    rw [if_neg (by omega : ¬k + 1 = 0)]
  · rw [hb]
    simp [SpscQueue.push, hincTop]
  · rw [hpop]
    simp only [SpscQueue.push, hincTop]
    rw [if_neg (by omega : ¬(0:Nat) = 1)]
  · rw [hpop]
    simp only [SpscQueue.push, hincTop]
    rw [if_neg (by omega : ¬(0:Nat) = 1)]
    simp [SpscQueue.push, hinc0]

/-- Witness for C9 at `α = Nat`, `C = 4`, `v = 7`, on the freshly
constructed queue. -/
theorem C9_spsc_sequential_witness :
    2 ≤ 4 ∧ (SpscQueue.init Nat 4).capacity = 4 ∧
      (SpscQueue.init Nat 4).head < 4 ∧ (SpscQueue.init Nat 4).tail < 4 ∧
      (((SpscQueue.push 7 (SpscQueue.init Nat 4)).1 = false ↔
          SpscQueue.size (SpscQueue.init Nat 4) = 4 - 1) ∧
        (SpscQueue.size (SpscQueue.init Nat 4) ≠ 4 - 1 →
          SpscQueue.push 7 (SpscQueue.init Nat 4) =
            (true, { SpscQueue.init Nat 4 with
                      buffer := (SpscQueue.init Nat 4).buffer.set
                        (SpscQueue.init Nat 4).head 7,
                      head := SpscQueue.increment (SpscQueue.init Nat 4).capacity
                        (SpscQueue.init Nat 4).head })) ∧
        (∀ k, k < 4 - 1 →
          (SpscQueue.push 7 (pushIter 7 k (SpscQueue.init Nat 4))).1 = true) ∧
        (SpscQueue.push 7 (pushIter 7 (4 - 1) (SpscQueue.init Nat 4))).1 = false ∧
        (SpscQueue.push 7
          (SpscQueue.pop (pushIter 7 (4 - 1) (SpscQueue.init Nat 4))).2).1 = true ∧
        (SpscQueue.push 7 (SpscQueue.push 7
          (SpscQueue.pop (pushIter 7 (4 - 1) (SpscQueue.init Nat 4))).2).2).1 = false) :=
  ⟨by decide, by decide, by decide, by decide,
   C9_spsc_sequential Nat 7 4 (by decide) (SpscQueue.init Nat 4)
     (by decide) (by decide) (by decide)⟩

theorem idIndexFind_erase_of_none (m : List (Nat × Nat)) (k k' : Nat)
    (h : idIndexFind m k = none) : idIndexFind (idIndexErase m k') k = none := by
  induction m with
  | nil => rfl
  | cons kv rest ih =>
    obtain ⟨a, v⟩ := kv
    simp only [idIndexFind] at h
    by_cases hak : a = k
    · rw [if_pos hak] at h
      exact absurd h (by simp)
    · rw [if_neg hak] at h
      simp only [idIndexErase]
      by_cases hak' : a = k'
      · rw [if_pos hak']
        exact h
      · rw [if_neg hak']
        simp only [idIndexFind]
        rw [if_neg hak]
        exact ih h

theorem matchIndices_find_none (st : MatchState) (qty : Int) (l : List Nat) (k : Nat)
    (h : idIndexFind st.id_to_index k = none) :
    idIndexFind (matchIndices st qty l).1.id_to_index k = none := by
  induction l generalizing st qty with
  | nil => exact h
  | cons idx rest ih =>
    simp only [matchIndices]
    split
    · exact h
    · split
      · exact ih _ _ h
      · split
        · exact ih _ _ (idIndexFind_erase_of_none _ _ _ h)
        · show idIndexFind (matchIndices _ _ rest).1.id_to_index k = none
          exact ih _ _ h

theorem matchLevels_find_none (st : MatchState) (book : List (Int × Level))
    (qty : Int) (cross : Int → Bool) (k : Nat)
    (h : idIndexFind st.id_to_index k = none) :
    idIndexFind (matchLevels st book qty cross).1.id_to_index k = none := by
  induction book generalizing st qty with
  | nil => exact h
  | cons pl rest ih =>
    obtain ⟨p, lvl⟩ := pl
    simp only [matchLevels]
    split
    · exact h
    · split
      · exact h
      · split
        · exact ih _ _ (matchIndices_find_none st qty lvl.indices k h)
        · exact matchIndices_find_none st qty lvl.indices k h

theorem match_incoming_limit_next_id (side : Side) (price qty : Int) (b : OrderBook) :
    (match_incoming_limit side price qty b).2.next_id = b.next_id := by
  unfold match_incoming_limit
  split
  · rfl
  · cases side <;> rfl

theorem match_incoming_limit_find_none (side : Side) (price qty : Int)
    (b : OrderBook) (k : Nat) (h : idIndexFind b.id_to_index k = none) :
    idIndexFind (match_incoming_limit side price qty b).2.id_to_index k = none := by
  unfold match_incoming_limit match_on_book
  split
  · exact h
  · cases side
    · exact matchLevels_find_none _ _ _ _ _ h
    · exact matchLevels_find_none _ _ _ _ _ h

theorem allocate_slot_next_id (b : OrderBook) :
    (allocate_slot b).2.next_id = b.next_id := by
  unfold allocate_slot
  split <;> rfl

/-- C7 (amended): for `qty > 0` and `next_id_` not yet in `IdIndex`,
`add_limit(side, price, qty)` behaves like
`add_limit_with_id(next_id_, side, price, qty)` with the following two
differences forced by the code: when the taker pass leaves a residual,
both return `next_id_` and produce the same state except that only
`add_limit` increments `next_id_` (consuming one internal id); when the
order is fully matched as taker, `add_limit` returns 0 where
`add_limit_with_id` returns the id, the states coincide, and NO internal
id is consumed (`next_id_` is unchanged), contrary to the claim's
"each call consumes exactly one internal id". -/
theorem C7_add_limit_refines_with_id (b : OrderBook) (side : Side) (price qty : Int)
    (hq : 0 < qty) (hfresh : idIndexFind b.id_to_index b.next_id = none) :
    (0 < (match_incoming_limit side price qty b).1 →
      (add_limit_order side price qty b).1 = b.next_id ∧
      (add_limit_order_with_id b.next_id side price qty b).1 = b.next_id ∧
      (add_limit_order side price qty b).2 =
        { (add_limit_order_with_id b.next_id side price qty b).2 with
          next_id := b.next_id + 1 }) ∧
    ((match_incoming_limit side price qty b).1 ≤ 0 →
      (add_limit_order side price qty b).1 = 0 ∧
      (add_limit_order_with_id b.next_id side price qty b).1 = b.next_id ∧
      (add_limit_order side price qty b).2 =
        (add_limit_order_with_id b.next_id side price qty b).2 ∧
      (add_limit_order side price qty b).2.next_id = b.next_id) := by
  have hnq : ¬qty ≤ 0 := not_le.mpr hq
  have hnext := match_incoming_limit_next_id side price qty b
  have hfind := match_incoming_limit_find_none side price qty b b.next_id hfresh
  have halloc := allocate_slot_next_id (match_incoming_limit side price qty b).2
  constructor
  · intro h0
    have hnm : ¬(match_incoming_limit side price qty b).1 ≤ 0 := not_le.mpr h0
    refine ⟨?_, ?_, ?_⟩
    · simp only [add_limit_order, if_neg hnq, if_neg hnm]
      cases side <;> simp [halloc, hnext]
    · simp only [add_limit_order_with_id, if_neg hnq, if_neg hnm]
      cases side <;> simp [hfind]
    · simp only [add_limit_order, add_limit_order_with_id, if_neg hnq, if_neg hnm, hfind]
      cases side <;> simp [halloc, hnext]
  · intro h0
    have hm : (match_incoming_limit side price qty b).1 ≤ 0 := h0
    refine ⟨?_, ?_, ?_, ?_⟩
    · simp only [add_limit_order, if_neg hnq, if_pos hm]
    · simp only [add_limit_order_with_id, if_neg hnq, if_pos hm]
    · simp only [add_limit_order, add_limit_order_with_id, if_neg hnq, if_pos hm]
    · simp only [add_limit_order, if_neg hnq, if_pos hm]
      exact hnext

/-- Witness for C7 at the empty book: a resting buy 100×5. -/
theorem C7_add_limit_refines_with_id_witness :
    0 < (5:Int) ∧
      idIndexFind OrderBook.init.id_to_index OrderBook.init.next_id = none ∧
      ((0 < (match_incoming_limit Side.Buy 100 5 OrderBook.init).1 →
        (add_limit_order Side.Buy 100 5 OrderBook.init).1 = OrderBook.init.next_id ∧
        (add_limit_order_with_id OrderBook.init.next_id Side.Buy 100 5 OrderBook.init).1 =
          OrderBook.init.next_id ∧
        (add_limit_order Side.Buy 100 5 OrderBook.init).2 =
          { (add_limit_order_with_id OrderBook.init.next_id Side.Buy 100 5
              OrderBook.init).2 with next_id := OrderBook.init.next_id + 1 }) ∧
      ((match_incoming_limit Side.Buy 100 5 OrderBook.init).1 ≤ 0 →
        (add_limit_order Side.Buy 100 5 OrderBook.init).1 = 0 ∧
        (add_limit_order_with_id OrderBook.init.next_id Side.Buy 100 5 OrderBook.init).1 =
          OrderBook.init.next_id ∧
        (add_limit_order Side.Buy 100 5 OrderBook.init).2 =
          (add_limit_order_with_id OrderBook.init.next_id Side.Buy 100 5 OrderBook.init).2 ∧
        (add_limit_order Side.Buy 100 5 OrderBook.init).2.next_id =
          OrderBook.init.next_id)) :=
  ⟨by decide, by decide,
   C7_add_limit_refines_with_id OrderBook.init Side.Buy 100 5 (by decide) (by decide)⟩

theorem idIndexFind_set_self (m : List (Nat × Nat)) (k v : Nat) :
    idIndexFind (idIndexSet m k v) k = some v := by
  induction m with
  | nil => simp [idIndexSet, idIndexFind]
  | cons kv rest ih =>
    obtain ⟨a, w⟩ := kv
    simp only [idIndexSet]
    by_cases hak : a = k
    · rw [if_pos hak]
      simp [idIndexFind]
    · rw [if_neg hak]
      simp only [idIndexFind]
      rw [if_neg hak]
      exact ih

/-- C6 (amended): when `add_limit_with_id(id, side, price, qty)` has
`qty > 0`, its taker pass leaves a residual `r > 0` and `id` is (still)
present in `IdIndex` mapping to an in-range slot `s`, the call
supersedes the old order without reporting an error — it returns `id` —
but the tombstoned slot, being the most recently freed, is immediately
popped back by `allocate_slot` for the new order: after the call the
free-list is exactly what it was after the taker pass (the old slot is
NOT left on it), slot `s` holds the new active order
`{id, side, price, r, active}` (not an inactive qty-0 tombstone), and
`IdIndex` maps `id` to that same old slot index `s`. -/
theorem C6_supersede_reuses_old_slot (b : OrderBook) (id : Nat) (side : Side)
    (price qty : Int) (hq : 0 < qty)
    (hres : 0 < (match_incoming_limit side price qty b).1) (s : Nat)
    (hfind : idIndexFind (match_incoming_limit side price qty b).2.id_to_index id =
      some s)
    (hlen : s < (match_incoming_limit side price qty b).2.orders.length) :
    (add_limit_order_with_id id side price qty b).1 = id ∧
      (add_limit_order_with_id id side price qty b).2.free_indices =
        (match_incoming_limit side price qty b).2.free_indices ∧
      (add_limit_order_with_id id side price qty b).2.orders.getD s default =
        ⟨id, side, price, (match_incoming_limit side price qty b).1, true⟩ ∧
      idIndexFind (add_limit_order_with_id id side price qty b).2.id_to_index id =
        some s := by
  have hnq : ¬qty ≤ 0 := not_le.mpr hq
  have hnm : ¬(match_incoming_limit side price qty b).1 ≤ 0 := not_le.mpr hres
  simp only [add_limit_order_with_id, if_neg hnq, if_neg hnm, hfind,
    allocate_slot]
  cases side <;>
    exact ⟨rfl, rfl,
      by simp [List.set_set, List.getD_eq_getElem?_getD,
        List.getElem?_set_eq_of_lt _ hlen],
      idIndexFind_set_self _ id s⟩

/-- Witness for C6: superseding the resting buy `{42, Buy, 100, 5}`
(slot 0) with `add_limit_with_id(42, Buy, 90, 7)`. -/
theorem C6_supersede_reuses_old_slot_witness :
    (let b := (add_limit_order_with_id 42 Side.Buy 100 5 OrderBook.init).2
     0 < (7:Int) ∧
       0 < (match_incoming_limit Side.Buy 90 7 b).1 ∧
       idIndexFind (match_incoming_limit Side.Buy 90 7 b).2.id_to_index 42 = some 0 ∧
       0 < (match_incoming_limit Side.Buy 90 7 b).2.orders.length ∧
       ((add_limit_order_with_id 42 Side.Buy 90 7 b).1 = 42 ∧
         (add_limit_order_with_id 42 Side.Buy 90 7 b).2.free_indices =
           (match_incoming_limit Side.Buy 90 7 b).2.free_indices ∧
         (add_limit_order_with_id 42 Side.Buy 90 7 b).2.orders.getD 0 default =
           ⟨42, Side.Buy, 90, (match_incoming_limit Side.Buy 90 7 b).1, true⟩ ∧
         idIndexFind (add_limit_order_with_id 42 Side.Buy 90 7 b).2.id_to_index 42 =
           some 0)) :=
  ⟨by decide, by decide, by decide, by decide,
   C6_supersede_reuses_old_slot
     (add_limit_order_with_id 42 Side.Buy 100 5 OrderBook.init).2
     42 Side.Buy 90 7 (by decide) (by decide) 0 (by decide) (by decide)⟩

theorem getD_set_ne_order (l : List Order) (i j : Nat) (o : Order) (hij : i ≠ j) :
    (l.set i o).getD j default = l.getD j default := by
  simp [List.getD_eq_getElem?_getD, List.getElem?_set_ne hij]

theorem getD_append_singleton_ne (l : List Order) (x : Order) (j : Nat)
    (h : j ≠ l.length) : (l ++ [x]).getD j default = l.getD j default := by
  rcases Nat.lt_or_ge j l.length with hlt | hge
  · simp [List.getD_eq_getElem?_getD, List.getElem?_append_left hlt]
  · rw [List.getD_eq_getElem?_getD, List.getD_eq_getElem?_getD,
        List.getElem?_eq_none (by simp; omega),
        List.getElem?_eq_none hge]

theorem idIndexErase_set_of_none (m : List (Nat × Nat)) (k v : Nat)
    (h : idIndexFind m k = none) : idIndexErase (idIndexSet m k v) k = m := by
  induction m with
  | nil => simp [idIndexSet, idIndexErase]
  | cons kv rest ih =>
    obtain ⟨a, w⟩ := kv
    simp only [idIndexFind] at h
    by_cases hak : a = k
    · rw [if_pos hak] at h
      exact absurd h (by simp)
    · rw [if_neg hak] at h
      simp only [idIndexSet]
      rw [if_neg hak]
      simp only [idIndexErase]
      rw [if_neg hak, ih h]

theorem eraseLevelIdx_bookAppend (cmp : Int → Int → Bool)
    (book : List (Int × Level)) (p : Int) (idx : Nat)
    (hidx : idx ∉ allBookIndices book)
    (hne : ∀ pl ∈ book, pl.2.indices ≠ []) :
    eraseLevelIdx (bookAppend cmp book p idx) p idx = book := by
  induction book with
  | nil => simp [bookAppend, eraseLevelIdx]
  | cons pl rest ih =>
    obtain ⟨qk, lvl⟩ := pl
    have hidx1 : idx ∉ lvl.indices := fun hm => hidx (by simp [allBookIndices, hm])
    have hidxr : idx ∉ allBookIndices rest := fun hm =>
      hidx (by simp [allBookIndices, hm])
    have hlvl : lvl.indices ≠ [] := hne (qk, lvl) (by simp)
    simp only [bookAppend]
    by_cases hc : cmp p qk
    · rw [if_pos hc]
      simp only [eraseLevelIdx, if_pos rfl]
      simp
    · rw [if_neg hc]
      by_cases hpq : p = qk
      · rw [if_pos hpq]
        simp only [eraseLevelIdx]
        rw [if_pos hpq.symm]
        have hfil : (lvl.indices ++ [idx]).filter (fun i => i ≠ idx) = lvl.indices := by
          rw [List.filter_append]
          have h1 : lvl.indices.filter (fun i => decide (i ≠ idx)) = lvl.indices := by
            rw [List.filter_eq_self]
            intro a ha
            simp
            exact fun he => hidx1 (he ▸ ha)
          have h2 : ([idx] : List Nat).filter (fun i => decide (i ≠ idx)) = [] := by
            simp
          simp only [h1, h2, List.append_nil]
        rw [hfil]
        rw [if_neg (by simpa [List.isEmpty_iff] using hlvl)]
      · rw [if_neg hpq]
        simp only [eraseLevelIdx]
        rw [if_neg (fun h => hpq h.symm)]
        rw [ih hidxr (fun pl hm => hne pl (by simp [hm]))]

theorem best_bid_eq_of (b1 b2 : OrderBook) (hb : b1.bids = b2.bids)
    (h : ∀ i ∈ allBookIndices b2.bids,
      b1.orders.getD i default = b2.orders.getD i default) :
    best_bid b1 = best_bid b2 := by
  unfold best_bid
  rw [hb]
  cases hbb : b2.bids with
  | nil => rfl
  | cons pl rest =>
    obtain ⟨price, level⟩ := pl
    show (if levelQty b1.orders level.indices = 0
        then ({ valid := false, price := 0, qty := 0 } : LevelInfo)
        else { valid := true, price := price,
               qty := levelQty b1.orders level.indices }) =
      (if levelQty b2.orders level.indices = 0
        then { valid := false, price := 0, qty := 0 }
        else { valid := true, price := price,
               qty := levelQty b2.orders level.indices })
    rw [levelQty_congr b1.orders b2.orders level.indices
          (fun i hi => h i (by rw [hbb]; simp [allBookIndices, hi]))]

theorem best_ask_eq_of (b1 b2 : OrderBook) (hb : b1.asks = b2.asks)
    (h : ∀ i ∈ allBookIndices b2.asks,
      b1.orders.getD i default = b2.orders.getD i default) :
    best_ask b1 = best_ask b2 := by
  unfold best_ask
  rw [hb]
  cases hbb : b2.asks with
  | nil => rfl
  | cons pl rest =>
    obtain ⟨price, level⟩ := pl
    show (if levelQty b1.orders level.indices = 0
        then ({ valid := false, price := 0, qty := 0 } : LevelInfo)
        else { valid := true, price := price,
               qty := levelQty b1.orders level.indices }) =
      (if levelQty b2.orders level.indices = 0
        then { valid := false, price := 0, qty := 0 }
        else { valid := true, price := price,
               qty := levelQty b2.orders level.indices })
    rw [levelQty_congr b1.orders b2.orders level.indices
          (fun i hi => h i (by rw [hbb]; simp [allBookIndices, hi]))]

/-- C5 (amended): the round-trip holds only when the add does not match
as taker.  For a book state in which the slot the next `allocate_slot`
hands out is referenced by no level, the next internal id is not already
in `IdIndex`, levels are non-empty, a reused free slot is in range, and
`next_id ≠ 0`: if `add_limit(side, p, q)` with `q > 0` has a taker pass
that is a no-op filling nothing, it returns the nonzero id `next_id_`,
and the immediately following `cancel` of that id returns true and
restores the observable state — best quotes, emptiness, and the id
index — to what it was before the add. -/
theorem C5_add_cancel_roundtrip (b : OrderBook) (side : Side) (p q : Int)
    (hq : 0 < q)
    (h1 : match_incoming_limit side p q b = (q, b))
    (h2 : allocFreshIdx b ∉ allBookIndices b.bids ++ allBookIndices b.asks)
    (h3 : idIndexFind b.id_to_index b.next_id = none)
    (h4 : b.next_id ≠ 0)
    (h5 : b.free_indices ≠ [] → allocFreshIdx b < b.orders.length)
    (h6 : levelsNonempty b) :
    (add_limit_order side p q b).1 = b.next_id ∧
      (add_limit_order side p q b).1 ≠ 0 ∧
      (OrderBook.cancel b.next_id (add_limit_order side p q b).2).1 = true ∧
      best_bid (OrderBook.cancel b.next_id (add_limit_order side p q b).2).2 =
        best_bid b ∧
      best_ask (OrderBook.cancel b.next_id (add_limit_order side p q b).2).2 =
        best_ask b ∧
      OrderBook.empty (OrderBook.cancel b.next_id (add_limit_order side p q b).2).2 =
        OrderBook.empty b ∧
      (OrderBook.cancel b.next_id (add_limit_order side p q b).2).2.id_to_index =
        b.id_to_index := by
  have hnq : ¬q ≤ 0 := not_le.mpr hq
  have hidxB : allocFreshIdx b ∉ allBookIndices b.bids := fun hm =>
    h2 (List.mem_append_left _ hm)
  have hidxA : allocFreshIdx b ∉ allBookIndices b.asks := fun hm =>
    h2 (List.mem_append_right _ hm)
  cases side with
  | Buy =>
    rcases hfe : b.free_indices with _ | ⟨i, rest⟩
    · -- fresh slot: idx = b.orders.length
      have hi : allocFreshIdx b = b.orders.length := by
        simp [allocFreshIdx, hfe]
      rw [hi] at hidxB hidxA
      have hadd : add_limit_order Side.Buy p q b =
          (b.next_id,
            { bids := bookAppend bidCmp b.bids p b.orders.length,
              asks := b.asks,
              orders := (b.orders ++ [default]).set b.orders.length
                ⟨b.next_id, Side.Buy, p, q, true⟩,
              free_indices := [],
              id_to_index := idIndexSet b.id_to_index b.next_id b.orders.length,
              next_id := b.next_id + 1 }) := by
        simp only [add_limit_order, h1, if_neg hnq, allocate_slot, hfe]
      have hget : ((b.orders ++ [default]).set b.orders.length
          ⟨b.next_id, Side.Buy, p, q, true⟩).getD b.orders.length default =
          ⟨b.next_id, Side.Buy, p, q, true⟩ := by
        simp [List.getD_eq_getElem?_getD,
          List.getElem?_set_eq_of_lt _ (by simp : b.orders.length <
            (b.orders ++ [default]).length)]
      have hcan : OrderBook.cancel b.next_id (add_limit_order Side.Buy p q b).2 =
          (true,
            { bids := b.bids,
              asks := b.asks,
              orders := ((b.orders ++ [default]).set b.orders.length
                  ⟨b.next_id, Side.Buy, p, q, true⟩).set b.orders.length
                ⟨b.next_id, Side.Buy, p, 0, false⟩,
              free_indices := [b.orders.length],
              id_to_index := b.id_to_index,
              next_id := b.next_id + 1 }) := by
        rw [hadd]
        simp only [OrderBook.cancel, idIndexFind_set_self, hget]
        rw [if_neg (by simp [hnq])]
        rw [eraseLevelIdx_bookAppend bidCmp b.bids p b.orders.length hidxB h6.1]
        rw [idIndexErase_set_of_none b.id_to_index b.next_id b.orders.length h3]
      have hpool : ∀ j, j ≠ b.orders.length →
          (((b.orders ++ [default]).set b.orders.length
              ⟨b.next_id, Side.Buy, p, q, true⟩).set b.orders.length
            ⟨b.next_id, Side.Buy, p, 0, false⟩).getD j default =
          b.orders.getD j default := by
        intro j hj
        rw [getD_set_ne_order _ _ _ _ (fun h => hj h.symm),
            getD_set_ne_order _ _ _ _ (fun h => hj h.symm),
            getD_append_singleton_ne _ _ _ hj]
      refine ⟨by rw [hadd], by rw [hadd]; exact h4, by rw [hcan], ?_, ?_, ?_, ?_⟩
      · rw [hcan]
        exact best_bid_eq_of _ b rfl
          (fun j hj => hpool j (fun he => hidxB (he ▸ hj)))
      · rw [hcan]
        exact best_ask_eq_of _ b rfl
          (fun j hj => hpool j (fun he => hidxA (he ▸ hj)))
      · rw [hcan]
        rfl
      · rw [hcan]
    · -- reused slot: idx = i, head of the free-list
      have hi : allocFreshIdx b = i := by simp [allocFreshIdx, hfe]
      rw [hi] at hidxB hidxA
      have hilen : i < b.orders.length := by
        have := h5 (by rw [hfe]; simp)
        rwa [hi] at this
      have hadd : add_limit_order Side.Buy p q b =
          (b.next_id,
            { bids := bookAppend bidCmp b.bids p i,
              asks := b.asks,
              orders := b.orders.set i ⟨b.next_id, Side.Buy, p, q, true⟩,
              free_indices := rest,
              id_to_index := idIndexSet b.id_to_index b.next_id i,
              next_id := b.next_id + 1 }) := by
        simp only [add_limit_order, h1, if_neg hnq, allocate_slot, hfe]
      have hget : (b.orders.set i ⟨b.next_id, Side.Buy, p, q, true⟩).getD i default =
          ⟨b.next_id, Side.Buy, p, q, true⟩ := by
        simp [List.getD_eq_getElem?_getD, List.getElem?_set_eq_of_lt _ hilen]
      have hcan : OrderBook.cancel b.next_id (add_limit_order Side.Buy p q b).2 =
          (true,
            { bids := b.bids,
              asks := b.asks,
              orders := (b.orders.set i ⟨b.next_id, Side.Buy, p, q, true⟩).set i
                ⟨b.next_id, Side.Buy, p, 0, false⟩,
              free_indices := i :: rest,
              id_to_index := b.id_to_index,
              next_id := b.next_id + 1 }) := by
        rw [hadd]
        simp only [OrderBook.cancel, idIndexFind_set_self, hget]
        rw [if_neg (by simp [hnq])]
        rw [eraseLevelIdx_bookAppend bidCmp b.bids p i hidxB h6.1]
        rw [idIndexErase_set_of_none b.id_to_index b.next_id i h3]
      have hpool : ∀ j, j ≠ i →
          ((b.orders.set i ⟨b.next_id, Side.Buy, p, q, true⟩).set i
            ⟨b.next_id, Side.Buy, p, 0, false⟩).getD j default =
          b.orders.getD j default := by
        intro j hj
        rw [getD_set_ne_order _ _ _ _ (fun h => hj h.symm),
            getD_set_ne_order _ _ _ _ (fun h => hj h.symm)]
      refine ⟨by rw [hadd], by rw [hadd]; exact h4, by rw [hcan], ?_, ?_, ?_, ?_⟩
      · rw [hcan]
        exact best_bid_eq_of _ b rfl
          (fun j hj => hpool j (fun he => hidxB (he ▸ hj)))
      · rw [hcan]
        exact best_ask_eq_of _ b rfl
          (fun j hj => hpool j (fun he => hidxA (he ▸ hj)))
      · rw [hcan]
        rfl
      · rw [hcan]
  | Sell =>
    rcases hfe : b.free_indices with _ | ⟨i, rest⟩
    · have hi : allocFreshIdx b = b.orders.length := by
        simp [allocFreshIdx, hfe]
      rw [hi] at hidxB hidxA
      have hadd : add_limit_order Side.Sell p q b =
          (b.next_id,
            { bids := b.bids,
              asks := bookAppend askCmp b.asks p b.orders.length,
              orders := (b.orders ++ [default]).set b.orders.length
                ⟨b.next_id, Side.Sell, p, q, true⟩,
              free_indices := [],
              id_to_index := idIndexSet b.id_to_index b.next_id b.orders.length,
              next_id := b.next_id + 1 }) := by
        simp only [add_limit_order, h1, if_neg hnq, allocate_slot, hfe]
      have hget : ((b.orders ++ [default]).set b.orders.length
          ⟨b.next_id, Side.Sell, p, q, true⟩).getD b.orders.length default =
          ⟨b.next_id, Side.Sell, p, q, true⟩ := by
        simp [List.getD_eq_getElem?_getD,
          List.getElem?_set_eq_of_lt _ (by simp : b.orders.length <
            (b.orders ++ [default]).length)]
      have hcan : OrderBook.cancel b.next_id (add_limit_order Side.Sell p q b).2 =
          (true,
            { bids := b.bids,
              asks := b.asks,
              orders := ((b.orders ++ [default]).set b.orders.length
                  ⟨b.next_id, Side.Sell, p, q, true⟩).set b.orders.length
                ⟨b.next_id, Side.Sell, p, 0, false⟩,
              free_indices := [b.orders.length],
              id_to_index := b.id_to_index,
              next_id := b.next_id + 1 }) := by
        rw [hadd]
        simp only [OrderBook.cancel, idIndexFind_set_self, hget]
        rw [if_neg (by simp [hnq])]
        rw [eraseLevelIdx_bookAppend askCmp b.asks p b.orders.length hidxA h6.2]
        rw [idIndexErase_set_of_none b.id_to_index b.next_id b.orders.length h3]
      have hpool : ∀ j, j ≠ b.orders.length →
          (((b.orders ++ [default]).set b.orders.length
              ⟨b.next_id, Side.Sell, p, q, true⟩).set b.orders.length
            ⟨b.next_id, Side.Sell, p, 0, false⟩).getD j default =
          b.orders.getD j default := by
        intro j hj
        rw [getD_set_ne_order _ _ _ _ (fun h => hj h.symm),
            getD_set_ne_order _ _ _ _ (fun h => hj h.symm),
            getD_append_singleton_ne _ _ _ hj]
      refine ⟨by rw [hadd], by rw [hadd]; exact h4, by rw [hcan], ?_, ?_, ?_, ?_⟩
      · rw [hcan]
        exact best_bid_eq_of _ b rfl
          (fun j hj => hpool j (fun he => hidxB (he ▸ hj)))
      · rw [hcan]
        exact best_ask_eq_of _ b rfl
          (fun j hj => hpool j (fun he => hidxA (he ▸ hj)))
      · rw [hcan]
        rfl
      · rw [hcan]
    · have hi : allocFreshIdx b = i := by simp [allocFreshIdx, hfe]
      rw [hi] at hidxB hidxA
      have hilen : i < b.orders.length := by
        have := h5 (by rw [hfe]; simp)
        rwa [hi] at this
      have hadd : add_limit_order Side.Sell p q b =
          (b.next_id,
            { bids := b.bids,
              asks := bookAppend askCmp b.asks p i,
              orders := b.orders.set i ⟨b.next_id, Side.Sell, p, q, true⟩,
              free_indices := rest,
              id_to_index := idIndexSet b.id_to_index b.next_id i,
              next_id := b.next_id + 1 }) := by
        simp only [add_limit_order, h1, if_neg hnq, allocate_slot, hfe]
      have hget : (b.orders.set i ⟨b.next_id, Side.Sell, p, q, true⟩).getD i default =
          ⟨b.next_id, Side.Sell, p, q, true⟩ := by
        simp [List.getD_eq_getElem?_getD, List.getElem?_set_eq_of_lt _ hilen]
      have hcan : OrderBook.cancel b.next_id (add_limit_order Side.Sell p q b).2 =
          (true,
            { bids := b.bids,
              asks := b.asks,
              orders := (b.orders.set i ⟨b.next_id, Side.Sell, p, q, true⟩).set i
                ⟨b.next_id, Side.Sell, p, 0, false⟩,
              free_indices := i :: rest,
              id_to_index := b.id_to_index,
              next_id := b.next_id + 1 }) := by
        rw [hadd]
        simp only [OrderBook.cancel, idIndexFind_set_self, hget]
        rw [if_neg (by simp [hnq])]
        rw [eraseLevelIdx_bookAppend askCmp b.asks p i hidxA h6.2]
        rw [idIndexErase_set_of_none b.id_to_index b.next_id i h3]
      have hpool : ∀ j, j ≠ i →
          ((b.orders.set i ⟨b.next_id, Side.Sell, p, q, true⟩).set i
            ⟨b.next_id, Side.Sell, p, 0, false⟩).getD j default =
          b.orders.getD j default := by
        intro j hj
        rw [getD_set_ne_order _ _ _ _ (fun h => hj h.symm),
            getD_set_ne_order _ _ _ _ (fun h => hj h.symm)]
      refine ⟨by rw [hadd], by rw [hadd]; exact h4, by rw [hcan], ?_, ?_, ?_, ?_⟩
      · rw [hcan]
        exact best_bid_eq_of _ b rfl
          (fun j hj => hpool j (fun he => hidxB (he ▸ hj)))
      · rw [hcan]
        exact best_ask_eq_of _ b rfl
          (fun j hj => hpool j (fun he => hidxA (he ▸ hj)))
      · rw [hcan]
        rfl
      · rw [hcan]

/-- Witness for C5 at the empty book: a non-crossing buy 100×5 then its
cancel. -/
theorem C5_add_cancel_roundtrip_witness :
    0 < (5:Int) ∧
      match_incoming_limit Side.Buy 100 5 OrderBook.init = (5, OrderBook.init) ∧
      allocFreshIdx OrderBook.init ∉
        allBookIndices OrderBook.init.bids ++ allBookIndices OrderBook.init.asks ∧
      idIndexFind OrderBook.init.id_to_index OrderBook.init.next_id = none ∧
      OrderBook.init.next_id ≠ 0 ∧
      (OrderBook.init.free_indices ≠ [] →
        allocFreshIdx OrderBook.init < OrderBook.init.orders.length) ∧
      levelsNonempty OrderBook.init ∧
      ((add_limit_order Side.Buy 100 5 OrderBook.init).1 = OrderBook.init.next_id ∧
        (add_limit_order Side.Buy 100 5 OrderBook.init).1 ≠ 0 ∧
        (OrderBook.cancel OrderBook.init.next_id
          (add_limit_order Side.Buy 100 5 OrderBook.init).2).1 = true ∧
        best_bid (OrderBook.cancel OrderBook.init.next_id
          (add_limit_order Side.Buy 100 5 OrderBook.init).2).2 =
          best_bid OrderBook.init ∧
        best_ask (OrderBook.cancel OrderBook.init.next_id
          (add_limit_order Side.Buy 100 5 OrderBook.init).2).2 =
          best_ask OrderBook.init ∧
        OrderBook.empty (OrderBook.cancel OrderBook.init.next_id
          (add_limit_order Side.Buy 100 5 OrderBook.init).2).2 =
          OrderBook.empty OrderBook.init ∧
        (OrderBook.cancel OrderBook.init.next_id
          (add_limit_order Side.Buy 100 5 OrderBook.init).2).2.id_to_index =
          OrderBook.init.id_to_index) :=
  ⟨by decide, by decide, by decide, by decide, by decide, by decide, by decide,
   C5_add_cancel_roundtrip OrderBook.init Side.Buy 100 5 (by decide) (by decide)
     (by decide) (by decide) (by decide) (by decide) (by decide)⟩

theorem keys_matchLevels_suffix (st : MatchState) (book : List (Int × Level))
    (qty : Int) (cross : Int → Bool) :
    List.IsSuffix ((matchLevels st book qty cross).2.1.map Prod.fst)
      (book.map Prod.fst) := by
  induction book generalizing st qty with
  | nil => exact List.suffix_refl _
  | cons pl rest ih =>
    obtain ⟨p, lvl⟩ := pl
    simp only [matchLevels]
    split
    · exact List.suffix_refl _
    · split
      · exact List.suffix_refl _
      · split
        · exact (ih _ _).trans (List.suffix_cons _ _)
        · exact List.suffix_refl _

theorem matchLevels_stop (st : MatchState) (book : List (Int × Level)) (qty : Int)
    (cross : Int → Bool) (h : 0 < (matchLevels st book qty cross).2.2) :
    (matchLevels st book qty cross).2.1 = [] ∨
      ∃ p lvl rest2, (matchLevels st book qty cross).2.1 = (p, lvl) :: rest2 ∧
        cross p = false := by
  induction book generalizing st qty with
  | nil => exact Or.inl rfl
  | cons pl rest ih =>
    obtain ⟨p, lvl⟩ := pl
    simp only [matchLevels] at h ⊢
    by_cases h1 : qty ≤ 0
    · rw [if_pos h1] at h
      have hq : (0:Int) < qty := h
      omega
    · rw [if_neg h1] at h ⊢
      by_cases h2 : cross p = true
      · rw [if_neg (by simp [h2])] at h ⊢
        by_cases h3 : (matchIndices st qty lvl.indices).2.1.isEmpty
        · rw [if_pos h3] at h ⊢
          exact ih _ _ h
        · rw [if_neg h3] at h
          have hz := matchIndices_kept_imp_qty_zero st qty lvl.indices
            (by simpa [List.isEmpty_iff] using h3)
          have hq : (0:Int) < (matchIndices st qty lvl.indices).2.2 := h
          omega
      · have h2' : cross p = false := by simpa using h2
        rw [if_pos (by simp [h2'])] at h ⊢
        exact Or.inr ⟨p, lvl, rest, rfl, h2'⟩

theorem bookAppend_keys_mem (cmp : Int → Int → Bool) (book : List (Int × Level))
    (p : Int) (idx : Nat) :
    ∀ k ∈ (bookAppend cmp book p idx).map Prod.fst,
      k = p ∨ k ∈ book.map Prod.fst := by
  induction book with
  | nil =>
    intro k hk
    simp [bookAppend] at hk
    exact Or.inl hk
  | cons pl rest ih =>
    obtain ⟨qk, lvl⟩ := pl
    intro k hk
    simp only [bookAppend] at hk
    by_cases hc : cmp p qk
    · rw [if_pos hc] at hk
      simp at hk
      rcases hk with h | h | h
      · exact Or.inl h
      · exact Or.inr (by simp [h])
      · exact Or.inr (by simp [h])
    · rw [if_neg hc] at hk
      by_cases hpq : p = qk
      · rw [if_pos hpq] at hk
        simp at hk
        rcases hk with h | h
        · exact Or.inr (by simp [h])
        · exact Or.inr (by simp [h])
      · rw [if_neg hpq] at hk
        simp at hk
        rcases hk with h | h
        · exact Or.inr (by simp [h])
        · rcases ih k (by simpa using h) with h' | h'
          · exact Or.inl h'
          · exact Or.inr (by simp [h'])

theorem bookAppend_pairwise (R : Int → Int → Prop) (cmp : Int → Int → Bool)
    (hcmpR : ∀ a c, cmp a c = true → R a c)
    (hrev : ∀ a c, cmp a c = false → a ≠ c → R c a)
    (htrans : ∀ a c d, R a c → R c d → R a d)
    (book : List (Int × Level)) (p : Int) (idx : Nat)
    (hp : (book.map Prod.fst).Pairwise R) :
    ((bookAppend cmp book p idx).map Prod.fst).Pairwise R := by
  induction book with
  | nil => simp [bookAppend]
  | cons pl rest ih =>
    obtain ⟨qk, lvl⟩ := pl
    simp only [List.map_cons, List.pairwise_cons] at hp
    obtain ⟨hq_all, hrest⟩ := hp
    simp only [bookAppend]
    by_cases hc : cmp p qk
    · rw [if_pos hc]
      simp only [List.map_cons, List.pairwise_cons]
      refine ⟨?_, hq_all, hrest⟩
      intro k hk
      rcases List.mem_cons.mp hk with h | h
      · exact h ▸ hcmpR p qk hc
      · exact htrans p qk k (hcmpR p qk hc) (hq_all k h)
    · rw [if_neg hc]
      by_cases hpq : p = qk
      · rw [if_pos hpq]
        simp only [List.map_cons, List.pairwise_cons]
        exact ⟨hq_all, hrest⟩
      · rw [if_neg hpq]
        simp only [List.map_cons, List.pairwise_cons]
        refine ⟨?_, ih hrest⟩
        intro k hk
        rcases bookAppend_keys_mem cmp rest p idx k hk with h | h
        · exact h ▸ hrev p qk (Bool.not_eq_true _ ▸ hc : cmp p qk = false) hpq
        · exact hq_all k h

theorem keysWF_of_sublist (bk bk' ak ak' : List Int)
    (hb : List.Sublist bk' bk) (ha : List.Sublist ak' ak)
    (h : KeysWF bk ak) : KeysWF bk' ak' :=
  ⟨h.1.sublist hb, h.2.1.sublist ha,
   fun pb hpb pa hpa => h.2.2 pb (hb.subset hpb) pa (ha.subset hpa)⟩

theorem keysWF_rest_buy (book : List (Int × Level)) (ak : List Int) (p : Int)
    (idx : Nat) (hwf : KeysWF (book.map Prod.fst) ak)
    (hstop : ak = [] ∨ ∃ pa0 rest2, ak = pa0 :: rest2 ∧ p < pa0) :
    KeysWF ((bookAppend bidCmp book p idx).map Prod.fst) ak := by
  obtain ⟨hb, ha, hcross⟩ := hwf
  refine ⟨?_, ha, ?_⟩
  · exact bookAppend_pairwise (fun a c => c < a) bidCmp
      (fun a c h => by simpa [bidCmp] using h)
      (fun a c h hne => by
        simp [bidCmp] at h
        omega)
      (fun a c d h1 h2 => by omega)
      book p idx hb
  · intro pb hpb pa hpa
    rcases bookAppend_keys_mem bidCmp book p idx pb hpb with h | h
    · subst h
      rcases hstop with h0 | ⟨pa0, rest2, hak, hlt⟩
      · rw [h0] at hpa
        cases hpa
      · rw [hak] at hpa ha
        rcases List.mem_cons.mp hpa with h' | h'
        · omega
        · have := (List.pairwise_cons.mp ha).1 pa h'
          omega
    · exact hcross pb h pa hpa

theorem keysWF_rest_sell (bk : List Int) (book : List (Int × Level)) (p : Int)
    (idx : Nat) (hwf : KeysWF bk (book.map Prod.fst))
    (hstop : bk = [] ∨ ∃ pb0 rest2, bk = pb0 :: rest2 ∧ pb0 < p) :
    KeysWF bk ((bookAppend askCmp book p idx).map Prod.fst) := by
  obtain ⟨hb, ha, hcross⟩ := hwf
  refine ⟨hb, ?_, ?_⟩
  · exact bookAppend_pairwise (fun a c => a < c) askCmp
      (fun a c h => by simpa [askCmp] using h)
      (fun a c h hne => by
        simp [askCmp] at h
        omega)
      (fun a c d h1 h2 => by omega)
      book p idx ha
  · intro pb hpb pa hpa
    rcases bookAppend_keys_mem askCmp book p idx pa hpa with h | h
    · subst h
      rcases hstop with h0 | ⟨pb0, rest2, hbk, hlt⟩
      · rw [h0] at hpb
        cases hpb
      · rw [hbk] at hpb hb
        rcases List.mem_cons.mp hpb with h' | h'
        · omega
        · have := (List.pairwise_cons.mp hb).1 pb h'
          omega
    · exact hcross pb hpb pa h

theorem match_incoming_limit_keys (side : Side) (p q : Int) (b : OrderBook) :
    List.IsSuffix (bidKeys (match_incoming_limit side p q b).2) (bidKeys b) ∧
      List.IsSuffix (askKeys (match_incoming_limit side p q b).2) (askKeys b) := by
  unfold match_incoming_limit match_on_book
  split
  · exact ⟨List.suffix_refl _, List.suffix_refl _⟩
  · cases side
    · exact ⟨List.suffix_refl _, keys_matchLevels_suffix _ _ _ _⟩
    · exact ⟨keys_matchLevels_suffix _ _ _ _, List.suffix_refl _⟩

theorem allocate_slot_books (b : OrderBook) :
    (allocate_slot b).2.bids = b.bids ∧ (allocate_slot b).2.asks = b.asks := by
  unfold allocate_slot
  split <;> exact ⟨rfl, rfl⟩

theorem match_incoming_limit_rest_buy (p q : Int) (b : OrderBook) (hq : ¬q ≤ 0)
    (hres : 0 < (match_incoming_limit Side.Buy p q b).1) :
    askKeys (match_incoming_limit Side.Buy p q b).2 = [] ∨
      ∃ pa0 rest2, askKeys (match_incoming_limit Side.Buy p q b).2 = pa0 :: rest2 ∧
        p < pa0 := by
  simp only [match_incoming_limit, match_on_book, if_neg hq, askKeys] at hres ⊢
  rcases matchLevels_stop _ _ _ _ hres with h | ⟨pa, lvl, rest2, heq, hcr⟩
  · left
    rw [h]
    rfl
  · right
    refine ⟨pa, rest2.map Prod.fst, ?_, ?_⟩
    · rw [heq]
      rfl
    · simp at hcr
      omega

theorem match_incoming_limit_rest_sell (p q : Int) (b : OrderBook) (hq : ¬q ≤ 0)
    (hres : 0 < (match_incoming_limit Side.Sell p q b).1) :
    bidKeys (match_incoming_limit Side.Sell p q b).2 = [] ∨
      ∃ pb0 rest2, bidKeys (match_incoming_limit Side.Sell p q b).2 = pb0 :: rest2 ∧
        pb0 < p := by
  simp only [match_incoming_limit, match_on_book, if_neg hq, bidKeys] at hres ⊢
  rcases matchLevels_stop _ _ _ _ hres with h | ⟨pb, lvl, rest2, heq, hcr⟩
  · left
    rw [h]
    rfl
  · right
    refine ⟨pb, rest2.map Prod.fst, ?_, ?_⟩
    · rw [heq]
      rfl
    · simp at hcr
      omega

theorem wf_market (side : Side) (q : Int) (b : OrderBook) (hwf : BookOrderedWF b) :
    BookOrderedWF (execute_market_order side q b).2 := by
  unfold execute_market_order match_on_book
  split
  · exact hwf
  · cases side
    · exact keysWF_of_sublist _ _ _ _ (List.Sublist.refl _)
        (keys_matchLevels_suffix _ _ _ _).sublist hwf
    · exact keysWF_of_sublist _ _ _ _ (keys_matchLevels_suffix _ _ _ _).sublist
        (List.Sublist.refl _) hwf

theorem keys_eraseLevelIdx_sublist (book : List (Int × Level)) (p : Int) (idx : Nat) :
    List.Sublist ((eraseLevelIdx book p idx).map Prod.fst) (book.map Prod.fst) := by
  induction book with
  | nil => simp [eraseLevelIdx]
  | cons pl rest ih =>
    obtain ⟨qk, lvl⟩ := pl
    simp only [eraseLevelIdx]
    by_cases hq : qk = p
    · rw [if_pos hq]
      by_cases he : (lvl.indices.filter (fun i => i ≠ idx)).isEmpty
      · rw [if_pos he]
        exact List.Sublist.cons _ (List.Sublist.refl _)
      · rw [if_neg he]
        exact List.Sublist.refl _
    · rw [if_neg hq]
      simp only [List.map_cons]
      exact List.Sublist.cons₂ _ ih

theorem wf_cancel (id : Nat) (b : OrderBook) (hwf : BookOrderedWF b) :
    BookOrderedWF (OrderBook.cancel id b).2 := by
  simp only [OrderBook.cancel]
  cases hfind : idIndexFind b.id_to_index id with
  | none => exact hwf
  | some idx =>
    show BookOrderedWF
      (if ¬(b.orders.getD idx default).active = true ∨
          (b.orders.getD idx default).qty ≤ 0 then
        (false, { b with id_to_index := idIndexErase b.id_to_index id })
       else
        (true,
          { (match (b.orders.getD idx default).side with
             | Side.Buy =>
               { b with
                 orders := b.orders.set idx
                   { b.orders.getD idx default with active := false, qty := 0 },
                 free_indices := idx :: b.free_indices,
                 bids := eraseLevelIdx b.bids (b.orders.getD idx default).price idx }
             | Side.Sell =>
               { b with
                 orders := b.orders.set idx
                   { b.orders.getD idx default with active := false, qty := 0 },
                 free_indices := idx :: b.free_indices,
                 asks := eraseLevelIdx b.asks (b.orders.getD idx default).price idx }) with
            id_to_index := idIndexErase
              (match (b.orders.getD idx default).side with
               | Side.Buy =>
                 { b with
                   orders := b.orders.set idx
                     { b.orders.getD idx default with active := false, qty := 0 },
                   free_indices := idx :: b.free_indices,
                   bids := eraseLevelIdx b.bids (b.orders.getD idx default).price idx }
               | Side.Sell =>
                 { b with
                   orders := b.orders.set idx
                     { b.orders.getD idx default with active := false, qty := 0 },
                   free_indices := idx :: b.free_indices,
                   asks := eraseLevelIdx b.asks (b.orders.getD idx default).price idx
                   }).id_to_index id })).2
    by_cases hact : ¬(b.orders.getD idx default).active = true ∨
        (b.orders.getD idx default).qty ≤ 0
    · rw [if_pos hact]
      exact hwf
    · rw [if_neg hact]
      cases hside : (b.orders.getD idx default).side
      · exact keysWF_of_sublist _ _ _ _ (keys_eraseLevelIdx_sublist _ _ _)
          (List.Sublist.refl _) hwf
      · exact keysWF_of_sublist _ _ _ _ (List.Sublist.refl _)
          (keys_eraseLevelIdx_sublist _ _ _) hwf

theorem wf_add_limit (side : Side) (p q : Int) (b : OrderBook)
    (hwf : BookOrderedWF b) : BookOrderedWF (add_limit_order side p q b).2 := by
  simp only [add_limit_order]
  split
  · exact hwf
  · next hq =>
    have hsuf := match_incoming_limit_keys side p q b
    have hwf1 : KeysWF (bidKeys (match_incoming_limit side p q b).2)
        (askKeys (match_incoming_limit side p q b).2) :=
      keysWF_of_sublist _ _ _ _ hsuf.1.sublist hsuf.2.sublist hwf
    split
    · exact hwf1
    · next hres =>
      cases side
      · have hstop := match_incoming_limit_rest_buy p q b hq (by omega)
        simp only [BookOrderedWF, bidKeys, askKeys]
        rw [(allocate_slot_books _).1, (allocate_slot_books _).2]
        exact keysWF_rest_buy _ _ _ _ hwf1 hstop
      · have hstop := match_incoming_limit_rest_sell p q b hq (by omega)
        simp only [BookOrderedWF, bidKeys, askKeys]
        rw [(allocate_slot_books _).1, (allocate_slot_books _).2]
        exact keysWF_rest_sell _ _ _ _ hwf1 hstop

theorem wf_add_limit_with_id (id : Nat) (side : Side) (p q : Int) (b : OrderBook)
    (hwf : BookOrderedWF b) :
    BookOrderedWF (add_limit_order_with_id id side p q b).2 := by
  simp only [add_limit_order_with_id]
  split
  · exact hwf
  · next hq =>
    have hsuf := match_incoming_limit_keys side p q b
    have hwf1 : KeysWF (bidKeys (match_incoming_limit side p q b).2)
        (askKeys (match_incoming_limit side p q b).2) :=
      keysWF_of_sublist _ _ _ _ hsuf.1.sublist hsuf.2.sublist hwf
    split
    · exact hwf1
    · next hres =>
      cases hfind : idIndexFind (match_incoming_limit side p q b).2.id_to_index id with
      | some oldIdx =>
        cases side
        · have hstop := match_incoming_limit_rest_buy p q b hq (by omega)
          simp only [BookOrderedWF, bidKeys, askKeys]
          rw [(allocate_slot_books _).1, (allocate_slot_books _).2]
          exact keysWF_rest_buy _ _ _ _ hwf1 hstop
        · have hstop := match_incoming_limit_rest_sell p q b hq (by omega)
          simp only [BookOrderedWF, bidKeys, askKeys]
          rw [(allocate_slot_books _).1, (allocate_slot_books _).2]
          exact keysWF_rest_sell _ _ _ _ hwf1 hstop
      | none =>
        cases side
        · have hstop := match_incoming_limit_rest_buy p q b hq (by omega)
          simp only [BookOrderedWF, bidKeys, askKeys]
          rw [(allocate_slot_books _).1, (allocate_slot_books _).2]
          exact keysWF_rest_buy _ _ _ _ hwf1 hstop
        · have hstop := match_incoming_limit_rest_sell p q b hq (by omega)
          simp only [BookOrderedWF, bidKeys, askKeys]
          rw [(allocate_slot_books _).1, (allocate_slot_books _).2]
          exact keysWF_rest_sell _ _ _ _ hwf1 hstop

theorem wf_init : BookOrderedWF OrderBook.init := by
  refine ⟨?_, ?_, ?_⟩ <;> simp [bidKeys, askKeys, OrderBook.init]

theorem reachable_wf (b : OrderBook) (h : Reachable b) : BookOrderedWF b := by
  induction h with
  | init => exact wf_init
  | add_limit side price qty _ ih => exact wf_add_limit side price qty _ ih
  | add_with_id id side price qty _ ih => exact wf_add_limit_with_id id side price qty _ ih
  | cancel id _ ih => exact wf_cancel id _ ih
  | market side qty _ ih => exact wf_market side qty _ ih
  | clear _ ih => exact wf_init

theorem best_bid_price_mem (b : OrderBook) (h : (best_bid b).valid = true) :
    (best_bid b).price ∈ bidKeys b := by
  cases hbb : b.bids with
  | nil =>
    unfold best_bid at h
    rw [hbb] at h
    simp at h
  | cons pl rest =>
    obtain ⟨price, level⟩ := pl
    have h' : (if levelQty b.orders level.indices = 0
        then ({ valid := false, price := 0, qty := 0 } : LevelInfo)
        else { valid := true, price := price,
               qty := levelQty b.orders level.indices }).valid = true := by
      unfold best_bid at h
      rw [hbb] at h
      exact h
    by_cases hz : levelQty b.orders level.indices = 0
    · rw [if_pos hz] at h'
      simp at h'
    · have hp : (best_bid b).price = price := by
        unfold best_bid
        rw [hbb]
        show (if levelQty b.orders level.indices = 0
          then ({ valid := false, price := 0, qty := 0 } : LevelInfo)
          else { valid := true, price := price,
                 qty := levelQty b.orders level.indices }).price = price
        rw [if_neg hz]
      rw [hp]
      unfold bidKeys
      rw [hbb]
      simp

theorem best_ask_price_mem (b : OrderBook) (h : (best_ask b).valid = true) :
    (best_ask b).price ∈ askKeys b := by
  cases hbb : b.asks with
  | nil =>
    unfold best_ask at h
    rw [hbb] at h
    simp at h
  | cons pl rest =>
    obtain ⟨price, level⟩ := pl
    have h' : (if levelQty b.orders level.indices = 0
        then ({ valid := false, price := 0, qty := 0 } : LevelInfo)
        else { valid := true, price := price,
               qty := levelQty b.orders level.indices }).valid = true := by
      unfold best_ask at h
      rw [hbb] at h
      exact h
    by_cases hz : levelQty b.orders level.indices = 0
    · rw [if_pos hz] at h'
      simp at h'
    · have hp : (best_ask b).price = price := by
        unfold best_ask
        rw [hbb]
        show (if levelQty b.orders level.indices = 0
          then ({ valid := false, price := 0, qty := 0 } : LevelInfo)
          else { valid := true, price := price,
                 qty := levelQty b.orders level.indices }).price = price
        rw [if_neg hz]
      rw [hp]
      unfold askKeys
      rw [hbb]
      simp

/-- C4 (amended): in every state reachable from the empty book by any
sequence of `add_limit_order`, `add_limit_order_with_id`, `cancel`,
`execute_market_order` and `clear`, every bid level price is strictly
below every ask level price (so the resting books never cross), and
consequently `best_bid().price < best_ask().price` whenever both best
quotes are valid.  (The validity proviso is what the counterexample
forces: a stale all-tombstone top level makes the quote invalid with
the value-initialized `price = 0`.) -/
theorem C4_books_never_cross (b : OrderBook) (h : Reachable b) :
    (∀ pb ∈ bidKeys b, ∀ pa ∈ askKeys b, pb < pa) ∧
      ((best_bid b).valid = true → (best_ask b).valid = true →
        (best_bid b).price < (best_ask b).price) := by
  have hwf := reachable_wf b h
  exact ⟨hwf.2.2, fun hb ha =>
    hwf.2.2 _ (best_bid_price_mem b hb) _ (best_ask_price_mem b ha)⟩

/-- Witness for C4 at the reachable book holding a resting ask 105×4 and
a resting bid 100×10. -/
theorem C4_books_never_cross_witness :
    (∀ pb ∈ bidKeys (add_limit_order Side.Buy 100 10
        (add_limit_order Side.Sell 105 4 OrderBook.init).2).2,
      ∀ pa ∈ askKeys (add_limit_order Side.Buy 100 10
        (add_limit_order Side.Sell 105 4 OrderBook.init).2).2, pb < pa) ∧
      ((best_bid (add_limit_order Side.Buy 100 10
          (add_limit_order Side.Sell 105 4 OrderBook.init).2).2).valid = true →
        (best_ask (add_limit_order Side.Buy 100 10
          (add_limit_order Side.Sell 105 4 OrderBook.init).2).2).valid = true →
        (best_bid (add_limit_order Side.Buy 100 10
          (add_limit_order Side.Sell 105 4 OrderBook.init).2).2).price <
          (best_ask (add_limit_order Side.Buy 100 10
            (add_limit_order Side.Sell 105 4 OrderBook.init).2).2).price) :=
  C4_books_never_cross _
    (Reachable.add_limit Side.Buy 100 10
      (Reachable.add_limit Side.Sell 105 4 Reachable.init))

end TradingCore
